import Mathlib

/-!
Verification of the `syncutil` concurrency utilities: a task `Bundle`
(`src/syncutil/bundle.go`) and an `InvariantMutex` (`src/invariant_mutex.go`).

The invariant mutex is embedded as trace-producing functions: each method
returns the list of primitive actions (underlying lock operations and runs of
the user `check`) it performs, in order, as a function of the process-wide
debug flag `-syncutil.check_invariants`.  `panic` is embedded as `Except`.

The bundle is embedded as a small-step interleaving semantics.  Each goroutine
spawned by `Bundle.Add` is a thread whose micro-states follow the body of the
closure in `Add`:

    err := f(b.context)            -- TState.running r, r = op result
    if err == nil { return }       -- success goes straight to the deferred Done
    b.errorOnce.Do(func() {        -- TState.atOnce e : at the once guard
      b.firstError = err           -- TState.atStore e : won the guard, storing
      b.cancel()                   -- TState.atCancel : stored, cancelling
    })
    (deferred) b.waitGroup.Done()  -- TState.atDone : decrementing the counter

The global state (`Bundle`) carries the `sync.WaitGroup` counter, the
`sync.Once` flag, the `firstError` slot, the cancellation state of the child
context, and ghost history fields (`added`, `storeCount`, `cancelCount`) used
only to state theorems.  A schedule is a list of events (`Ev`): an `add`
submitting an operation whose eventual result is a given value, or a micro-step
of thread `i`.  `run` executes a schedule from the initial state; invalid
events (stepping a finished or nonexistent thread) yield `none`, so theorems
over all schedules cover every interleaving of the goroutines.
-/

set_option autoImplicit false

namespace Syncutil

/-! ### Invariant mutex (`src/invariant_mutex.go`) -/

/-- Primitive actions performed by `InvariantMutex` methods: the four
underlying `sync.RWMutex` operations and a run of the user `check`. -/
inductive MAct where
  | acquireW : MAct
  | releaseW : MAct
  | acquireR : MAct
  | releaseR : MAct
  | runCheck : MAct
deriving DecidableEq, Repr

/-- State of the underlying `sync.RWMutex`; a zero value is a fresh lock. -/
structure RWMutex where
  writeLocked : Bool
  readers : Nat
deriving DecidableEq, Repr

/-- Zero value of `sync.RWMutex`: unlocked. -/
def freshRWMutex : RWMutex := { writeLocked := false, readers := 0 }

/-- Result of `NewInvariantMutex`: the mutex pairs a fresh underlying lock
with the non-nil check.  `χ` stands for the opaque check closure. -/
structure InvariantMutex (χ : Type) where
  mu : RWMutex
  check : χ
deriving DecidableEq, Repr

/-- Trace of `(i *InvariantMutex) checkIfEnabled()` as a function of the
`-syncutil.check_invariants` flag: runs `i.check()` iff the flag is set. -/
def checkIfEnabled (enabled : Bool) : List MAct :=
  if enabled then [MAct.runCheck] else []

/-- Trace of `(i *InvariantMutex) Lock()`: `i.mu.Lock()` then
`i.checkIfEnabled()`. -/
def InvariantMutex.Lock (enabled : Bool) : List MAct :=
  [MAct.acquireW] ++ checkIfEnabled enabled

/-- Trace of `(i *InvariantMutex) Unlock()`: `i.checkIfEnabled()` then
`i.mu.Unlock()`. -/
def InvariantMutex.Unlock (enabled : Bool) : List MAct :=
  checkIfEnabled enabled ++ [MAct.releaseW]

/-- Trace of `(i *InvariantMutex) RLock()`: `i.mu.RLock()` then
`i.checkIfEnabled()`. -/
def InvariantMutex.RLock (enabled : Bool) : List MAct :=
  [MAct.acquireR] ++ checkIfEnabled enabled

/-- Trace of `(i *InvariantMutex) RUnlock()`: `i.checkIfEnabled()` then
`i.mu.RUnlock()`. -/
def InvariantMutex.RUnlock (enabled : Bool) : List MAct :=
  checkIfEnabled enabled ++ [MAct.releaseR]

/-- Embedding of `NewInvariantMutex(check func())`.  The argument is `none`
for a nil check.  A panic is `Except.error` carrying the panic message;
otherwise the result is the constructed mutex together with the trace of
actions performed before returning (`check()` runs iff the flag is set). -/
def NewInvariantMutex {χ : Type} (enabled : Bool) (check : Option χ) :
    Except String (InvariantMutex χ × List MAct) :=
  match check with
  | none => Except.error "check must be non-nil."
  | some c =>
      Except.ok ({ mu := freshRWMutex, check := c },
        if enabled then [MAct.runCheck] else [])

/-! ### Cancellation contexts (`NewBundle`, `src/syncutil/bundle.go`) -/

/-- A context is modelled by the chain of cancel handles (numbered) between it
and the root `context.Background()`, which has none. -/
abbrev Ctx : Type := List Nat

/-- Embedding of `context.Background()`: no cancel handle; never cancelled. -/
def background : Ctx := []

/-- Embedding of `context.WithCancel(parent)`: a child context with one fresh
cancel handle `id` in addition to the parent's. -/
def withCancel (parent : Ctx) (id : Nat) : Ctx := parent ++ [id]

/-- A context is cancelled iff one of its cancel handles has been invoked;
`cancelledIds` is the set of invoked handles. -/
def isCancelled (cancelledIds : List Nat) (c : Ctx) : Bool :=
  c.any (fun h => cancelledIds.contains h)

/-- Context derivation in `NewBundle(parent)`: a nil parent is replaced by
`context.Background()`, then `b.context, b.cancel = context.WithCancel(parent)`
with fresh cancel handle `id`. -/
def NewBundleCtx (parent : Option Ctx) (id : Nat) : Ctx :=
  withCancel (parent.getD background) id

/-! ### Bundle small-step semantics (`src/syncutil/bundle.go`) -/

/-- Micro-state of one goroutine spawned by `Bundle.Add`.  `ε` is the error
type; an operation's eventual result is `Option ε` (`none` for a nil error). -/
inductive TState (ε : Type) where
  | running : Option ε → TState ε
  | atOnce : ε → TState ε
  | atStore : ε → TState ε
  | atCancel : TState ε
  | atDone : TState ε
  | finished : TState ε
deriving DecidableEq, Repr

/-- A thread is finished once its deferred `waitGroup.Done()` has run. -/
def TState.isFinished {ε : Type} : TState ε → Bool
  | .finished => true
  | _ => false

/-- A thread about to execute `b.firstError = err` inside the once body. -/
def TState.isStore {ε : Type} : TState ε → Bool
  | .atStore _ => true
  | _ => false

/-- A thread about to execute `b.cancel()` inside the once body. -/
def TState.isCancel {ε : Type} : TState ε → Bool
  | .atCancel => true
  | _ => false

/-- Global state of a `Bundle`.  `threads` are the goroutines spawned by
`Add`; `counter` is the `sync.WaitGroup` counter; `onceDone` the `sync.Once`
flag; `firstError` and `cancelled` the error slot and the cancellation state
of `b.context`.  `added`, `storeCount` and `cancelCount` are ghost history:
the results of all submitted operations, the number of writes to
`b.firstError`, and the number of `b.cancel()` calls. -/
structure Bundle (ε : Type) where
  threads : List (TState ε)
  counter : Nat
  firstError : Option ε
  onceDone : Bool
  cancelled : Bool
  added : List (Option ε)
  storeCount : Nat
  cancelCount : Nat
deriving DecidableEq, Repr

/-- Fresh bundle as produced by `NewBundle`: no goroutines, zero counter,
empty error slot, once not fired, context not cancelled. -/
def Bundle.init (ε : Type) : Bundle ε :=
  { threads := [], counter := 0, firstError := none, onceDone := false,
    cancelled := false, added := [], storeCount := 0, cancelCount := 0 }

/-- Embedding of `Bundle.Add`: `b.waitGroup.Add(1)` and the `go` statement
spawning a goroutine for an operation whose eventual result is `r`.  The
counter is incremented before the goroutine exists, so a racing `Join`
cannot observe zero while the operation is unscheduled. -/
def Bundle.Add {ε : Type} (s : Bundle ε) (r : Option ε) : Bundle ε :=
  { s with threads := s.threads ++ [TState.running r],
           counter := s.counter + 1,
           added := s.added ++ [r] }

/-- One micro-step of goroutine `i` in micro-state `t`, following the
goroutine body in `Add`: a nil result skips to the deferred `Done`; a non-nil
result reaches `errorOnce.Do`, whose body (store the error, then cancel) runs
only for the caller that finds the once still unfired. -/
def Bundle.stepOf {ε : Type} (s : Bundle ε) (i : Nat) : TState ε → Option (Bundle ε)
  | .running none => some { s with threads := s.threads.set i .atDone }
  | .running (some e) => some { s with threads := s.threads.set i (.atOnce e) }
  | .atOnce e =>
      if s.onceDone then
        some { s with threads := s.threads.set i .atDone }
      else
        some { s with threads := s.threads.set i (.atStore e), onceDone := true }
  | .atStore e =>
      some { s with threads := s.threads.set i .atCancel,
                    firstError := some e,
                    storeCount := s.storeCount + 1 }
  | .atCancel =>
      some { s with threads := s.threads.set i .atDone,
                    cancelled := true,
                    cancelCount := s.cancelCount + 1 }
  | .atDone =>
      some { s with threads := s.threads.set i .finished,
                    counter := s.counter - 1 }
  | .finished => none

/-- One micro-step of thread `i`; `none` when `i` does not name a runnable
thread. -/
def Bundle.threadStep {ε : Type} (s : Bundle ε) (i : Nat) : Option (Bundle ε) :=
  match s.threads[i]? with
  | none => none
  | some t => s.stepOf i t

/-- Scheduler events: a call to `Add` (with the operation's eventual result),
or a micro-step of goroutine `i`. -/
inductive Ev (ε : Type) where
  | add : Option ε → Ev ε
  | tick : Nat → Ev ε
deriving DecidableEq, Repr

/-- Whether an event is a call to `Add`. -/
def Ev.isAdd {ε : Type} : Ev ε → Bool
  | .add _ => true
  | .tick _ => false

/-- Apply one event to the bundle state. -/
def Bundle.applyEv {ε : Type} (s : Bundle ε) : Ev ε → Option (Bundle ε)
  | .add r => some (s.Add r)
  | .tick i => s.threadStep i

/-- Run a schedule from state `s`; `none` if any event is invalid. -/
def Bundle.runFrom {ε : Type} (s : Bundle ε) : List (Ev ε) → Option (Bundle ε)
  | [] => some s
  | e :: rest =>
    match s.applyEv e with
    | none => none
    | some s' => s'.runFrom rest

/-- Run a schedule from the fresh bundle produced by `NewBundle`. -/
def Bundle.run {ε : Type} (evs : List (Ev ε)) : Option (Bundle ε) :=
  (Bundle.init ε).runFrom evs

/-- The wait in `Bundle.Join` (`b.waitGroup.Wait()`) returns exactly when the
counter is zero. -/
def Bundle.joinEnabled {ε : Type} (s : Bundle ε) : Prop :=
  s.counter = 0

/-- The wait condition is a decidable test on the counter. -/
instance Bundle.joinEnabledDecidable {ε : Type} (s : Bundle ε) :
    Decidable s.joinEnabled :=
  inferInstanceAs (Decidable (s.counter = 0))

/-- The value `Bundle.Join` returns once the wait completes: `b.firstError`,
`none` meaning a nil error (success). -/
def Bundle.Join {ε : Type} (s : Bundle ε) : Option ε :=
  s.firstError

/-- Example state: one submitted operation failed with error `5` and the
bundle has drained. -/
def sFail5 : Bundle Nat :=
  { threads := [TState.finished], counter := 0, firstError := some 5,
    onceDone := true, cancelled := true, added := [some 5], storeCount := 1,
    cancelCount := 1 }

/-- Example state: two operations failed (`7` won the once race, `8` was
discarded) and the bundle has drained. -/
def sFail78 : Bundle Nat :=
  { threads := [TState.finished, TState.finished], counter := 0,
    firstError := some 7, onceDone := true, cancelled := true,
    added := [some 7, some 8], storeCount := 1, cancelCount := 1 }

/-- Example state: two successful operations, drained. -/
def sOkOk : Bundle Nat :=
  { threads := [TState.finished, TState.finished], counter := 0,
    firstError := none, onceDone := false, cancelled := false,
    added := [none, none], storeCount := 0, cancelCount := 0 }

/-- Example state: mid-run, just after a failing operation stored error `3`
and cancelled, before its deferred `Done`. -/
def sMid3 : Bundle Nat :=
  { threads := [TState.atDone], counter := 1, firstError := some 3,
    onceDone := true, cancelled := true, added := [some 3], storeCount := 1,
    cancelCount := 1 }

/-- Example state: three successful operations, drained. -/
def sOk3 : Bundle Nat :=
  { threads := [TState.finished, TState.finished, TState.finished],
    counter := 0, firstError := none, onceDone := false, cancelled := false,
    added := [none, none, none], storeCount := 0, cancelCount := 0 }

/-- Example state: one successful operation, drained. -/
def sOk1 : Bundle Nat :=
  { threads := [TState.finished], counter := 0, firstError := none,
    onceDone := false, cancelled := false, added := [none], storeCount := 0,
    cancelCount := 0 }

/-! ### Reachability invariant of the bundle semantics -/

/-- Provenance of a thread's data: any error it may install came from the
result of a submitted operation. -/
def TState.provOk {ε : Type} (added : List (Option ε)) : TState ε → Prop
  | .running r => r ∈ added
  | .atOnce e => some e ∈ added
  | .atStore e => some e ∈ added
  | _ => True

/-- Number of goroutines that have not yet run `waitGroup.Done()`. -/
def Bundle.unfinishedCount {ε : Type} (s : Bundle ε) : Nat :=
  s.threads.countP (fun t => ! t.isFinished)

/-- Number of goroutines between winning the once guard and writing
`b.firstError`. -/
def Bundle.storePending {ε : Type} (s : Bundle ε) : Nat :=
  s.threads.countP TState.isStore

/-- Number of goroutines between writing `b.firstError` and calling
`b.cancel()`. -/
def Bundle.cancelPending {ε : Type} (s : Bundle ε) : Nat :=
  s.threads.countP TState.isCancel

/-- Reachability invariant: the `WaitGroup` counter counts unfinished
goroutines; every error held by a thread or stored in the slot came from a
submitted operation; and the once-protected critical section progresses
through exactly one of four phases (untriggered; winner about to store;
stored, about to cancel; stored and cancelled). -/
def Bundle.Inv {ε : Type} (s : Bundle ε) : Prop :=
  s.counter = s.unfinishedCount
  ∧ s.threads.length = s.added.length
  ∧ (∀ t ∈ s.threads, t.provOk s.added)
  ∧ (∀ e, s.firstError = some e → some e ∈ s.added)
  ∧ (if s.onceDone then
       (s.storePending = 1 ∧ s.cancelPending = 0 ∧ s.storeCount = 0 ∧
        s.cancelCount = 0 ∧ s.firstError = none ∧ s.cancelled = false)
       ∨ (s.storePending = 0 ∧ s.cancelPending = 1 ∧ s.storeCount = 1 ∧
          s.cancelCount = 0 ∧ s.firstError.isSome = true ∧ s.cancelled = false)
       ∨ (s.storePending = 0 ∧ s.cancelPending = 0 ∧ s.storeCount = 1 ∧
          s.cancelCount = 1 ∧ s.firstError.isSome = true ∧ s.cancelled = true)
     else
       s.storePending = 0 ∧ s.cancelPending = 0 ∧ s.storeCount = 0 ∧
       s.cancelCount = 0 ∧ s.firstError = none ∧ s.cancelled = false)

@[simp] theorem TState.isFinished_running {ε : Type} (r : Option ε) :
    (TState.running r).isFinished = false := rfl

@[simp] theorem TState.isFinished_atOnce {ε : Type} (e : ε) :
    (TState.atOnce e).isFinished = false := rfl

@[simp] theorem TState.isFinished_atStore {ε : Type} (e : ε) :
    (TState.atStore e).isFinished = false := rfl

@[simp] theorem TState.isFinished_atCancel {ε : Type} :
    (TState.atCancel : TState ε).isFinished = false := rfl

@[simp] theorem TState.isFinished_atDone {ε : Type} :
    (TState.atDone : TState ε).isFinished = false := rfl

@[simp] theorem TState.isFinished_finished {ε : Type} :
    (TState.finished : TState ε).isFinished = true := rfl

@[simp] theorem TState.isStore_running {ε : Type} (r : Option ε) :
    (TState.running r).isStore = false := rfl

@[simp] theorem TState.isStore_atOnce {ε : Type} (e : ε) :
    (TState.atOnce e).isStore = false := rfl

@[simp] theorem TState.isStore_atStore {ε : Type} (e : ε) :
    (TState.atStore e).isStore = true := rfl

@[simp] theorem TState.isStore_atCancel {ε : Type} :
    (TState.atCancel : TState ε).isStore = false := rfl

@[simp] theorem TState.isStore_atDone {ε : Type} :
    (TState.atDone : TState ε).isStore = false := rfl

@[simp] theorem TState.isStore_finished {ε : Type} :
    (TState.finished : TState ε).isStore = false := rfl

@[simp] theorem TState.isCancel_running {ε : Type} (r : Option ε) :
    (TState.running r).isCancel = false := rfl

@[simp] theorem TState.isCancel_atOnce {ε : Type} (e : ε) :
    (TState.atOnce e).isCancel = false := rfl

@[simp] theorem TState.isCancel_atStore {ε : Type} (e : ε) :
    (TState.atStore e).isCancel = false := rfl

@[simp] theorem TState.isCancel_atCancel {ε : Type} :
    (TState.atCancel : TState ε).isCancel = true := rfl

@[simp] theorem TState.isCancel_atDone {ε : Type} :
    (TState.atDone : TState ε).isCancel = false := rfl

@[simp] theorem TState.isCancel_finished {ε : Type} :
    (TState.finished : TState ε).isCancel = false := rfl

theorem countP_set_eq {α : Type} (p : α → Bool) (l : List α) (i : Nat)
    (a b : α) (h : l[i]? = some a) :
    (l.set i b).countP p + (if p a then 1 else 0)
      = l.countP p + (if p b then 1 else 0) := by
  induction l generalizing i with
  | nil => simp at h
  | cons x xs ih =>
    cases i with
    | zero =>
      simp only [List.getElem?_cons_zero, Option.some.injEq] at h
      subst h
      simp only [List.set_cons_zero, List.countP_cons]
      omega
    | succ n =>
      simp only [List.getElem?_cons_succ] at h
      simp only [List.set_cons_succ, List.countP_cons]
      have := ih n h
      omega

theorem provOk_set {ε : Type} (added : List (Option ε)) (ts : List (TState ε))
    (i : Nat) (t' : TState ε) (hall : ∀ t ∈ ts, t.provOk added)
    (h' : t'.provOk added) : ∀ t ∈ ts.set i t', t.provOk added := by
  intro t ht
  rcases List.mem_or_eq_of_mem_set ht with h | h
  · exact hall t h
  · subst h; exact h'

theorem Bundle.init_inv (ε : Type) : (Bundle.init ε).Inv := by
  constructor
  · rfl
  refine ⟨rfl, by intro t ht; simp [Bundle.init] at ht, ?_, ?_⟩
  · intro e he; simp [Bundle.init, Bundle.Join] at he
  · simp [Bundle.init, Bundle.storePending, Bundle.cancelPending]

theorem TState.provOk_mono {ε : Type} (added : List (Option ε)) (r' : Option ε)
    (t : TState ε) (h : t.provOk added) : t.provOk (added ++ [r']) := by
  cases t <;> simp only [TState.provOk] at h ⊢ <;>
    exact List.mem_append_left _ h

theorem Bundle.Add_inv {ε : Type} (s : Bundle ε) (r : Option ε)
    (hinv : s.Inv) : (s.Add r).Inv := by
  obtain ⟨hc, hlen, hprov, hferr, hphase⟩ := hinv
  have hcnt : ∀ p : TState ε → Bool,
      (s.threads ++ [TState.running r]).countP p
        = s.threads.countP p + (if p (TState.running r) then 1 else 0) := by
    intro p
    rw [List.countP_append]
    simp [List.countP_cons]
  refine ⟨?_, ?_, ?_, ?_, ?_⟩
  · show s.counter + 1 = Bundle.unfinishedCount _
    rw [Bundle.unfinishedCount] at hc ⊢
    simp only [Bundle.Add, hcnt]
    simp [hc, TState.isFinished]
  · show (s.threads ++ [TState.running r]).length = (s.added ++ [r]).length
    simp [hlen]
  · intro t ht
    simp only [Bundle.Add] at ht ⊢
    rcases List.mem_append.mp ht with h | h
    · exact TState.provOk_mono _ _ _ (hprov t h)
    · simp only [List.mem_singleton] at h
      subst h
      simp [TState.provOk]
  · intro e he
    exact List.mem_append_left _ (hferr e he)
  · show if (s.Add r).onceDone then _ else _
    have hsp : (s.Add r).storePending = s.storePending := by
      simp [Bundle.Add, Bundle.storePending, hcnt, TState.isStore]
    have hcp : (s.Add r).cancelPending = s.cancelPending := by
      simp [Bundle.Add, Bundle.cancelPending, hcnt, TState.isCancel]
    simp only [Bundle.Add] at hsp hcp ⊢
    rw [hsp, hcp]
    exact hphase

theorem Bundle.tick_running_ok_inv {ε : Type} (s : Bundle ε) (i : Nat)
    (hl : s.threads[i]? = some (TState.running none)) (hinv : s.Inv) :
    Bundle.Inv { s with threads := s.threads.set i TState.atDone } := by
  obtain ⟨hc, hlen, hprov, hferr, hphase⟩ := hinv
  have hfin := countP_set_eq (fun t => ! t.isFinished) s.threads i _ TState.atDone hl
  have hsto := countP_set_eq TState.isStore s.threads i _ TState.atDone hl
  have hcan := countP_set_eq TState.isCancel s.threads i _ TState.atDone hl
  simp at hfin hsto hcan
  refine ⟨?_, ?_, ?_, ?_, ?_⟩
  · show s.counter = _
    simp only [Bundle.unfinishedCount] at hc ⊢
    omega
  · show (s.threads.set _ _).length = s.added.length
    simp [List.length_set, hlen]
  · exact provOk_set _ _ _ _ hprov trivial
  · exact hferr
  · show if s.onceDone then _ else _
    simp only [Bundle.storePending, Bundle.cancelPending] at hphase ⊢
    rw [show (s.threads.set i TState.atDone).countP TState.isStore
          = s.threads.countP TState.isStore from by omega,
        show (s.threads.set i TState.atDone).countP TState.isCancel
          = s.threads.countP TState.isCancel from by omega]
    exact hphase

theorem Bundle.tick_running_err_inv {ε : Type} (s : Bundle ε) (i : Nat) (e : ε)
    (hl : s.threads[i]? = some (TState.running (some e))) (hinv : s.Inv) :
    Bundle.Inv { s with threads := s.threads.set i (TState.atOnce e) } := by
  obtain ⟨hc, hlen, hprov, hferr, hphase⟩ := hinv
  have hmem := List.getElem?_mem hl
  have hfin := countP_set_eq (fun t => ! t.isFinished) s.threads i _ (TState.atOnce e) hl
  have hsto := countP_set_eq TState.isStore s.threads i _ (TState.atOnce e) hl
  have hcan := countP_set_eq TState.isCancel s.threads i _ (TState.atOnce e) hl
  simp at hfin hsto hcan
  refine ⟨?_, ?_, ?_, ?_, ?_⟩
  · show s.counter = _
    simp only [Bundle.unfinishedCount] at hc ⊢
    omega
  · show (s.threads.set _ _).length = s.added.length
    simp [List.length_set, hlen]
  · refine provOk_set _ _ _ _ hprov ?_
    have := hprov _ hmem
    simpa [TState.provOk] using this
  · exact hferr
  · show if s.onceDone then _ else _
    simp only [Bundle.storePending, Bundle.cancelPending] at hphase ⊢
    rw [show (s.threads.set i (TState.atOnce e)).countP TState.isStore
          = s.threads.countP TState.isStore from by omega,
        show (s.threads.set i (TState.atOnce e)).countP TState.isCancel
          = s.threads.countP TState.isCancel from by omega]
    exact hphase

theorem Bundle.tick_once_lose_inv {ε : Type} (s : Bundle ε) (i : Nat) (e : ε)
    (hl : s.threads[i]? = some (TState.atOnce e)) (hinv : s.Inv) :
    Bundle.Inv { s with threads := s.threads.set i TState.atDone } := by
  obtain ⟨hc, hlen, hprov, hferr, hphase⟩ := hinv
  have hfin := countP_set_eq (fun t => ! t.isFinished) s.threads i _ TState.atDone hl
  have hsto := countP_set_eq TState.isStore s.threads i _ TState.atDone hl
  have hcan := countP_set_eq TState.isCancel s.threads i _ TState.atDone hl
  simp at hfin hsto hcan
  refine ⟨?_, ?_, ?_, ?_, ?_⟩
  · show s.counter = _
    simp only [Bundle.unfinishedCount] at hc ⊢
    omega
  · show (s.threads.set _ _).length = s.added.length
    simp [List.length_set, hlen]
  · exact provOk_set _ _ _ _ hprov trivial
  · exact hferr
  · show if s.onceDone then _ else _
    simp only [Bundle.storePending, Bundle.cancelPending] at hphase ⊢
    rw [show (s.threads.set i TState.atDone).countP TState.isStore
          = s.threads.countP TState.isStore from by omega,
        show (s.threads.set i TState.atDone).countP TState.isCancel
          = s.threads.countP TState.isCancel from by omega]
    exact hphase

theorem Bundle.tick_once_win_inv {ε : Type} (s : Bundle ε) (i : Nat) (e : ε)
    (hl : s.threads[i]? = some (TState.atOnce e)) (hd : s.onceDone = false)
    (hinv : s.Inv) :
    Bundle.Inv { s with threads := s.threads.set i (TState.atStore e),
                        onceDone := true } := by
  obtain ⟨hc, hlen, hprov, hferr, hphase⟩ := hinv
  have hmem := List.getElem?_mem hl
  have hfin := countP_set_eq (fun t => ! t.isFinished) s.threads i _ (TState.atStore e) hl
  have hsto := countP_set_eq TState.isStore s.threads i _ (TState.atStore e) hl
  have hcan := countP_set_eq TState.isCancel s.threads i _ (TState.atStore e) hl
  simp at hfin hsto hcan
  rw [hd, if_neg (by simp)] at hphase
  obtain ⟨hp1, hp2, hp3, hp4, hp5, hp6⟩ := hphase
  simp only [Bundle.storePending, Bundle.cancelPending] at hp1 hp2
  refine ⟨?_, ?_, ?_, ?_, ?_⟩
  · show s.counter = _
    simp only [Bundle.unfinishedCount] at hc ⊢
    omega
  · show (s.threads.set _ _).length = s.added.length
    simp [List.length_set, hlen]
  · refine provOk_set _ _ _ _ hprov ?_
    have := hprov _ hmem
    simpa [TState.provOk] using this
  · exact hferr
  · show if true = true then _ else _
    rw [if_pos rfl]
    left
    simp only [Bundle.storePending, Bundle.cancelPending]
    refine ⟨by omega, by omega, hp3, hp4, hp5, hp6⟩

theorem Bundle.tick_store_inv {ε : Type} (s : Bundle ε) (i : Nat) (e : ε)
    (hl : s.threads[i]? = some (TState.atStore e)) (hinv : s.Inv) :
    Bundle.Inv { s with threads := s.threads.set i TState.atCancel,
                        firstError := some e,
                        storeCount := s.storeCount + 1 } := by
  obtain ⟨hc, hlen, hprov, hferr, hphase⟩ := hinv
  have hmem := List.getElem?_mem hl
  have hspos : 0 < s.storePending :=
    List.countP_pos_iff.mpr ⟨_, hmem, rfl⟩
  have hfin := countP_set_eq (fun t => ! t.isFinished) s.threads i _ TState.atCancel hl
  have hsto := countP_set_eq TState.isStore s.threads i _ TState.atCancel hl
  have hcan := countP_set_eq TState.isCancel s.threads i _ TState.atCancel hl
  simp at hfin hsto hcan
  have hphase1 : s.storePending = 1 ∧ s.cancelPending = 0 ∧ s.storeCount = 0 ∧
      s.cancelCount = 0 ∧ s.firstError = none ∧ s.cancelled = false := by
    cases hd : s.onceDone with
    | false =>
      rw [hd, if_neg (by simp)] at hphase
      omega
    | true =>
      rw [hd, if_pos rfl] at hphase
      rcases hphase with h | h | h
      · exact h
      · omega
      · omega
  obtain ⟨hp1, hp2, hp3, hp4, hp5, hp6⟩ := hphase1
  simp only [Bundle.storePending, Bundle.cancelPending] at hp1 hp2 hspos
  have hd : s.onceDone = true := by
    cases hd : s.onceDone with
    | false =>
      rw [hd, if_neg (by simp)] at hphase
      simp only [Bundle.storePending] at hphase
      omega
    | true => rfl
  refine ⟨?_, ?_, ?_, ?_, ?_⟩
  · show s.counter = _
    simp only [Bundle.unfinishedCount] at hc ⊢
    omega
  · show (s.threads.set _ _).length = s.added.length
    simp [List.length_set, hlen]
  · exact provOk_set _ _ _ _ hprov trivial
  · intro e' he'
    simp only [Option.some.injEq] at he'
    subst he'
    have := hprov _ hmem
    simpa [TState.provOk] using this
  · show if s.onceDone then _ else _
    rw [hd, if_pos rfl]
    right; left
    simp only [Bundle.storePending, Bundle.cancelPending]
    refine ⟨by omega, by omega, by omega, hp4, by trivial, hp6⟩

theorem Bundle.tick_cancel_inv {ε : Type} (s : Bundle ε) (i : Nat)
    (hl : s.threads[i]? = some TState.atCancel) (hinv : s.Inv) :
    Bundle.Inv { s with threads := s.threads.set i TState.atDone,
                        cancelled := true,
                        cancelCount := s.cancelCount + 1 } := by
  obtain ⟨hc, hlen, hprov, hferr, hphase⟩ := hinv
  have hmem := List.getElem?_mem hl
  have hcpos : 0 < s.cancelPending :=
    List.countP_pos_iff.mpr ⟨_, hmem, rfl⟩
  have hfin := countP_set_eq (fun t => ! t.isFinished) s.threads i _ TState.atDone hl
  have hsto := countP_set_eq TState.isStore s.threads i _ TState.atDone hl
  have hcan := countP_set_eq TState.isCancel s.threads i _ TState.atDone hl
  simp at hfin hsto hcan
  have hphase2 : s.storePending = 0 ∧ s.cancelPending = 1 ∧ s.storeCount = 1 ∧
      s.cancelCount = 0 ∧ s.firstError.isSome = true ∧ s.cancelled = false := by
    cases hd : s.onceDone with
    | false =>
      rw [hd, if_neg (by simp)] at hphase
      obtain ⟨_, h2, _⟩ := hphase
      omega
    | true =>
      rw [hd, if_pos rfl] at hphase
      rcases hphase with h | h | h
      · omega
      · exact h
      · omega
  obtain ⟨hp1, hp2, hp3, hp4, hp5, hp6⟩ := hphase2
  simp only [Bundle.storePending, Bundle.cancelPending] at hp1 hp2 hcpos
  have hd : s.onceDone = true := by
    cases hd : s.onceDone with
    | false =>
      rw [hd, if_neg (by simp)] at hphase
      simp only [Bundle.cancelPending] at hphase
      omega
    | true => rfl
  refine ⟨?_, ?_, ?_, ?_, ?_⟩
  · show s.counter = _
    simp only [Bundle.unfinishedCount] at hc ⊢
    omega
  · show (s.threads.set _ _).length = s.added.length
    simp [List.length_set, hlen]
  · exact provOk_set _ _ _ _ hprov trivial
  · exact hferr
  · show if s.onceDone then _ else _
    rw [hd, if_pos rfl]
    right; right
    simp only [Bundle.storePending, Bundle.cancelPending]
    refine ⟨by omega, by omega, hp3, by omega, hp5, by trivial⟩

theorem Bundle.tick_done_inv {ε : Type} (s : Bundle ε) (i : Nat)
    (hl : s.threads[i]? = some TState.atDone) (hinv : s.Inv) :
    Bundle.Inv { s with threads := s.threads.set i TState.finished,
                        counter := s.counter - 1 } := by
  obtain ⟨hc, hlen, hprov, hferr, hphase⟩ := hinv
  have hmem := List.getElem?_mem hl
  have hupos : 0 < s.unfinishedCount :=
    List.countP_pos_iff.mpr ⟨_, hmem, rfl⟩
  have hfin := countP_set_eq (fun t => ! t.isFinished) s.threads i _ TState.finished hl
  have hsto := countP_set_eq TState.isStore s.threads i _ TState.finished hl
  have hcan := countP_set_eq TState.isCancel s.threads i _ TState.finished hl
  simp at hfin hsto hcan
  simp only [Bundle.unfinishedCount] at hupos
  refine ⟨?_, ?_, ?_, ?_, ?_⟩
  · show s.counter - 1 = _
    simp only [Bundle.unfinishedCount] at hc ⊢
    omega
  · show (s.threads.set _ _).length = s.added.length
    simp [List.length_set, hlen]
  · exact provOk_set _ _ _ _ hprov trivial
  · exact hferr
  · show if s.onceDone then _ else _
    simp only [Bundle.storePending, Bundle.cancelPending] at hphase ⊢
    rw [show (s.threads.set i TState.finished).countP TState.isStore
          = s.threads.countP TState.isStore from by omega,
        show (s.threads.set i TState.finished).countP TState.isCancel
          = s.threads.countP TState.isCancel from by omega]
    exact hphase

theorem Bundle.applyEv_inv {ε : Type} (s s' : Bundle ε) (ev : Ev ε)
    (hinv : s.Inv) (h : s.applyEv ev = some s') : s'.Inv := by
  cases ev with
  | add r =>
    simp only [Bundle.applyEv, Option.some.injEq] at h
    subst h
    exact Bundle.Add_inv s r hinv
  | tick i =>
    simp only [Bundle.applyEv] at h
    cases hl : s.threads[i]? with
    | none => simp [Bundle.threadStep, hl] at h
    | some t =>
      have h' : s.stepOf i t = some s' := by
        simpa [Bundle.threadStep, hl] using h
      cases t with
      | running r =>
        cases r with
        | none =>
          simp only [Bundle.stepOf, Option.some.injEq] at h'
          subst h'
          exact Bundle.tick_running_ok_inv s i hl hinv
        | some e =>
          simp only [Bundle.stepOf, Option.some.injEq] at h'
          subst h'
          exact Bundle.tick_running_err_inv s i e hl hinv
      | atOnce e =>
        simp only [Bundle.stepOf] at h'
        cases hd : s.onceDone with
        | true =>
          rw [if_pos hd, Option.some.injEq] at h'
          subst h'
          exact Bundle.tick_once_lose_inv s i e hl hinv
        | false =>
          rw [if_neg (by simp [hd]), Option.some.injEq] at h'
          subst h'
          exact Bundle.tick_once_win_inv s i e hl hd hinv
      | atStore e =>
        simp only [Bundle.stepOf, Option.some.injEq] at h'
        subst h'
        exact Bundle.tick_store_inv s i e hl hinv
      | atCancel =>
        simp only [Bundle.stepOf, Option.some.injEq] at h'
        subst h'
        exact Bundle.tick_cancel_inv s i hl hinv
      | atDone =>
        simp only [Bundle.stepOf, Option.some.injEq] at h'
        subst h'
        exact Bundle.tick_done_inv s i hl hinv
      | finished => simp [Bundle.stepOf] at h'

theorem Bundle.runFrom_inv {ε : Type} (evs : List (Ev ε)) (s s' : Bundle ε)
    (hinv : s.Inv) (h : s.runFrom evs = some s') : s'.Inv := by
  induction evs generalizing s with
  | nil =>
    simp only [Bundle.runFrom, Option.some.injEq] at h
    subst h
    exact hinv
  | cons e rest ih =>
    simp only [Bundle.runFrom] at h
    cases ha : s.applyEv e with
    | none => rw [ha] at h; exact Option.noConfusion h
    | some s1 =>
      rw [ha] at h
      exact ih s1 (Bundle.applyEv_inv s s1 e hinv ha) h

theorem Bundle.run_inv {ε : Type} (evs : List (Ev ε)) (s : Bundle ε)
    (h : Bundle.run evs = some s) : s.Inv :=
  Bundle.runFrom_inv evs (Bundle.init ε) s (Bundle.init_inv ε) h

theorem Bundle.counter_pos_of_pending {ε : Type} (s : Bundle ε)
    (hc : s.counter = s.unfinishedCount) (t : TState ε) (ht : t ∈ s.threads)
    (hnf : t.isFinished = false) : 0 < s.counter := by
  rw [hc, Bundle.unfinishedCount]
  exact List.countP_pos_iff.mpr ⟨t, ht, by simp [hnf]⟩

theorem Bundle.phase_of_counter_zero {ε : Type} (s : Bundle ε) (hinv : s.Inv)
    (hj : s.counter = 0) :
    (s.storeCount = 0 ∧ s.cancelCount = 0 ∧ s.firstError = none ∧
     s.cancelled = false)
    ∨ (s.storeCount = 1 ∧ s.cancelCount = 1 ∧ s.firstError.isSome = true ∧
       s.cancelled = true) := by
  obtain ⟨hc, hlen, hprov, hferr, hphase⟩ := hinv
  cases hd : s.onceDone with
  | false =>
    rw [hd, if_neg (by simp)] at hphase
    obtain ⟨_, _, h3, h4, h5, h6⟩ := hphase
    exact Or.inl ⟨h3, h4, h5, h6⟩
  | true =>
    rw [hd, if_pos rfl] at hphase
    rcases hphase with hp | hp | hp
    · obtain ⟨hp1, _⟩ := hp
      have hpos : 0 < s.storePending := by omega
      obtain ⟨t, ht, hst⟩ := List.countP_pos_iff.mp hpos
      have hnf : t.isFinished = false := by
        cases t <;> simp_all
      have := Bundle.counter_pos_of_pending s hc t ht hnf
      omega
    · obtain ⟨_, hp2, _⟩ := hp
      have hpos : 0 < s.cancelPending := by omega
      obtain ⟨t, ht, hct⟩ := List.countP_pos_iff.mp hpos
      have hnf : t.isFinished = false := by
        cases t <;> simp_all
      have := Bundle.counter_pos_of_pending s hc t ht hnf
      omega
    · obtain ⟨_, _, hp3, hp4, hp5, hp6⟩ := hp
      exact Or.inr ⟨hp3, hp4, hp5, hp6⟩

/-! ### Claim theorems -/

/-- C1: for every bundle, `Join` returns the contents of the first-error slot,
i.e. the single failure value installed by the first failing operation (a
value returned by one of the submitted operations, installed by exactly one
write), or success (`none`) if no operation installed a failure; at most one
failure value is surfaced. -/
theorem bundle_join_first_error {ε : Type} (evs : List (Ev ε)) (s : Bundle ε)
    (h : Bundle.run evs = some s) (hj : s.joinEnabled) :
    s.Join = s.firstError
    ∧ ((s.Join = none ∧ s.storeCount = 0)
       ∨ (∃ e, s.Join = some e ∧ some e ∈ s.added ∧ s.storeCount = 1)) := by
  have hinv := Bundle.run_inv evs s h
  have hferr := hinv.2.2.2.1
  refine ⟨rfl, ?_⟩
  rcases Bundle.phase_of_counter_zero s hinv hj with hp | hp
  · exact Or.inl ⟨hp.2.2.1, hp.1⟩
  · obtain ⟨hp1, _, hp3, _⟩ := hp
    obtain ⟨e, he⟩ := Option.isSome_iff_exists.mp hp3
    exact Or.inr ⟨e, he, hferr e he, hp1⟩

/-- C1 witness: a schedule where one operation fails with error `5`. -/
theorem bundle_join_first_error_witness :
    Bundle.run [Ev.add (some 5), Ev.tick 0, Ev.tick 0, Ev.tick 0, Ev.tick 0,
        Ev.tick 0] = some sFail5
    ∧ sFail5.joinEnabled
    ∧ (sFail5.Join = sFail5.firstError
       ∧ ((sFail5.Join = none ∧ sFail5.storeCount = 0)
          ∨ (∃ e, sFail5.Join = some e ∧ some e ∈ sFail5.added
              ∧ sFail5.storeCount = 1))) :=
  ⟨by decide, by decide,
   bundle_join_first_error [Ev.add (some 5), Ev.tick 0, Ev.tick 0, Ev.tick 0,
      Ev.tick 0, Ev.tick 0] sFail5 (by decide) (by decide)⟩

/-- C2: at most one error is ever stored in the first-error slot and the child
scope is cancelled at most once, only by the thread that stored the error;
when a failure surfaced at `Join` time, the store and the cancellation each
happened exactly once, all later failures having been discarded. -/
theorem bundle_once_single_store {ε : Type} (evs : List (Ev ε)) (s : Bundle ε)
    (h : Bundle.run evs = some s) :
    s.storeCount ≤ 1 ∧ s.cancelCount ≤ 1 ∧ s.cancelCount ≤ s.storeCount
    ∧ (s.joinEnabled → s.firstError.isSome = true →
        s.storeCount = 1 ∧ s.cancelCount = 1) := by
  have hinv := Bundle.run_inv evs s h
  have hphase := hinv.2.2.2.2
  have hbounds : s.storeCount ≤ 1 ∧ s.cancelCount ≤ 1 ∧
      s.cancelCount ≤ s.storeCount := by
    cases hd : s.onceDone with
    | false =>
      rw [hd, if_neg (by simp)] at hphase
      omega
    | true =>
      rw [hd, if_pos rfl] at hphase
      rcases hphase with hp | hp | hp <;> omega
  refine ⟨hbounds.1, hbounds.2.1, hbounds.2.2, ?_⟩
  intro hj hsome
  rcases Bundle.phase_of_counter_zero s hinv hj with hp | hp
  · rw [hp.2.2.1] at hsome
    exact absurd hsome (by simp)
  · exact ⟨hp.1, hp.2.1⟩

/-- C2 witness: a schedule where two operations fail; only the first winner
stores and cancels, the loser is discarded. -/
theorem bundle_once_single_store_witness :
    Bundle.run [Ev.add (some 7), Ev.add (some 8), Ev.tick 0, Ev.tick 1,
        Ev.tick 0, Ev.tick 0, Ev.tick 0, Ev.tick 1, Ev.tick 1, Ev.tick 0]
      = some sFail78
    ∧ (sFail78.storeCount ≤ 1 ∧ sFail78.cancelCount ≤ 1
       ∧ sFail78.cancelCount ≤ sFail78.storeCount
       ∧ (sFail78.joinEnabled → sFail78.firstError.isSome = true →
           sFail78.storeCount = 1 ∧ sFail78.cancelCount = 1)) :=
  ⟨by decide,
   bundle_once_single_store [Ev.add (some 7), Ev.add (some 8), Ev.tick 0,
      Ev.tick 1, Ev.tick 0, Ev.tick 0, Ev.tick 0, Ev.tick 1, Ev.tick 1,
      Ev.tick 0] sFail78 (by decide)⟩

/-- C3: `Join` never returns while an operation submitted before the `Join`
call is unfinished: when the counter observed by `Join`'s wait is zero, every
one of the submitted operations (one thread per submitted result) has reached
its final state. -/
theorem bundle_join_waits {ε : Type} (evs : List (Ev ε)) (s : Bundle ε)
    (h : Bundle.run evs = some s) (hj : s.joinEnabled) :
    s.threads.length = s.added.length
    ∧ ∀ t ∈ s.threads, t = TState.finished := by
  have hinv := Bundle.run_inv evs s h
  obtain ⟨hc, hlen, _⟩ := hinv
  refine ⟨hlen, ?_⟩
  intro t ht
  have hz : s.threads.countP (fun t => ! t.isFinished) = 0 := by
    rw [Bundle.joinEnabled] at hj
    rw [Bundle.unfinishedCount] at hc
    omega
  have hfin := List.countP_eq_zero.mp hz t ht
  cases t <;> (simp at hfin; try rfl)

/-- C3 witness: two successful operations, interleaved. -/
theorem bundle_join_waits_witness :
    Bundle.run [Ev.add (none : Option Nat), Ev.add none, Ev.tick 0, Ev.tick 1,
        Ev.tick 1, Ev.tick 0] = some sOkOk
    ∧ sOkOk.joinEnabled
    ∧ (sOkOk.threads.length = sOkOk.added.length
       ∧ ∀ t ∈ sOkOk.threads, t = TState.finished) :=
  ⟨by decide, by decide,
   bundle_join_waits [Ev.add (none : Option Nat), Ev.add none, Ev.tick 0,
      Ev.tick 1, Ev.tick 1, Ev.tick 0] sOkOk (by decide) (by decide)⟩

/-- C4: storing the first error happens-before the bundle's cancellation of
the child scope: in every reachable state, if the scope has been cancelled
then the first-error slot is already filled (so the bundle never cancels
while the slot is empty), and cancel calls never outnumber stores. -/
theorem bundle_store_before_cancel {ε : Type} (evs : List (Ev ε))
    (s : Bundle ε) (h : Bundle.run evs = some s) :
    (s.cancelled = true → s.firstError.isSome = true)
    ∧ s.cancelCount ≤ s.storeCount := by
  have hinv := Bundle.run_inv evs s h
  have hphase := hinv.2.2.2.2
  cases hd : s.onceDone with
  | false =>
    rw [hd, if_neg (by simp)] at hphase
    obtain ⟨_, _, _, _, _, h6⟩ := hphase
    refine ⟨fun hcanc => absurd (h6 ▸ hcanc) (by simp), by omega⟩
  | true =>
    rw [hd, if_pos rfl] at hphase
    rcases hphase with hp | hp | hp
    · obtain ⟨_, _, _, _, _, h6⟩ := hp
      refine ⟨fun hcanc => absurd (h6 ▸ hcanc) (by simp), by omega⟩
    · obtain ⟨_, _, _, _, _, h6⟩ := hp
      refine ⟨fun hcanc => absurd (h6 ▸ hcanc) (by simp), by omega⟩
    · exact ⟨fun _ => hp.2.2.2.2.1, by omega⟩

/-- C4 witness: a state reached mid-run, just after the winner stored its
error and cancelled, before its deferred `Done`. -/
theorem bundle_store_before_cancel_witness :
    Bundle.run [Ev.add (some 3), Ev.tick 0, Ev.tick 0, Ev.tick 0, Ev.tick 0]
      = some sMid3
    ∧ ((sMid3.cancelled = true → sMid3.firstError.isSome = true)
       ∧ sMid3.cancelCount ≤ sMid3.storeCount) :=
  ⟨by decide,
   bundle_store_before_cancel [Ev.add (some 3), Ev.tick 0, Ev.tick 0,
      Ev.tick 0, Ev.tick 0] sMid3 (by decide)⟩

/-- C5: each of the four lock-boundary operations runs the check iff the
debug toggle is active; `Lock` and `RLock` acquire then run the hook,
`Unlock` and `RUnlock` run the hook then release; with the toggle inactive no
operation ever runs the check. -/
theorem invariant_mutex_hook_order :
    InvariantMutex.Lock true = [MAct.acquireW, MAct.runCheck]
    ∧ InvariantMutex.Unlock true = [MAct.runCheck, MAct.releaseW]
    ∧ InvariantMutex.RLock true = [MAct.acquireR, MAct.runCheck]
    ∧ InvariantMutex.RUnlock true = [MAct.runCheck, MAct.releaseR]
    ∧ InvariantMutex.Lock false = [MAct.acquireW]
    ∧ InvariantMutex.Unlock false = [MAct.releaseW]
    ∧ InvariantMutex.RLock false = [MAct.acquireR]
    ∧ InvariantMutex.RUnlock false = [MAct.releaseR]
    ∧ (∀ enabled : Bool,
        ((MAct.runCheck ∈ InvariantMutex.Lock enabled) ↔ enabled = true)
        ∧ ((MAct.runCheck ∈ InvariantMutex.Unlock enabled) ↔ enabled = true)
        ∧ ((MAct.runCheck ∈ InvariantMutex.RLock enabled) ↔ enabled = true)
        ∧ ((MAct.runCheck ∈ InvariantMutex.RUnlock enabled) ↔ enabled = true)) := by
  refine ⟨by decide, by decide, by decide, by decide, by decide, by decide,
    by decide, by decide, ?_⟩
  intro enabled
  cases enabled <;> exact ⟨by decide, by decide, by decide, by decide⟩

/-- C6: `NewInvariantMutex` panics with a programmer error on a nil check,
whatever the toggle; with a non-nil check it runs the check exactly once
synchronously iff the toggle is active, and returns a fresh reader/writer
lock paired with the check. -/
theorem new_invariant_mutex_spec {χ : Type} (c : χ) :
    (∀ enabled : Bool,
       NewInvariantMutex enabled (none : Option χ)
         = Except.error "check must be non-nil.")
    ∧ NewInvariantMutex true (some c)
        = Except.ok ({ mu := freshRWMutex, check := c }, [MAct.runCheck])
    ∧ NewInvariantMutex false (some c)
        = Except.ok ({ mu := freshRWMutex, check := c }, []) :=
  ⟨fun enabled => by cases enabled <;> rfl, rfl, rfl⟩

/-- C7: `NewBundle` with a nil parent behaves exactly as with the ambient
never-cancelled background context: the derived child context is the same,
the background context itself is never cancelled, and the child is cancelled
exactly when the bundle's own cancel handle has fired. -/
theorem new_bundle_nil_parent :
    (∀ id : Nat, NewBundleCtx none id = NewBundleCtx (some background) id)
    ∧ (∀ S : List Nat, isCancelled S background = false)
    ∧ (∀ (id : Nat) (S : List Nat),
        isCancelled S (NewBundleCtx none id) = S.contains id) := by
  refine ⟨fun id => rfl, fun S => rfl, fun id S => ?_⟩
  simp [NewBundleCtx, withCancel, background, isCancelled]

/-- C8: a bundle whose submitted operations all succeed reaches `Join` with a
success result, the child scope not cancelled, and no cancel call ever made:
the success path leaves the scope's cancellation state unchanged. -/
theorem bundle_success_no_cancel {ε : Type} (evs : List (Ev ε)) (s : Bundle ε)
    (h : Bundle.run evs = some s) (hall : ∀ r ∈ s.added, r = none) :
    s.Join = none ∧ s.cancelled = false ∧ s.cancelCount = 0
    ∧ s.storeCount = 0 := by
  have hinv := Bundle.run_inv evs s h
  have hferr := hinv.2.2.2.1
  have hphase := hinv.2.2.2.2
  have hfe : s.firstError = none := by
    cases hfe : s.firstError with
    | none => rfl
    | some e =>
      have := hall _ (hferr e hfe)
      exact absurd this (by simp)
  have hns : s.firstError.isSome = false := by rw [hfe]; rfl
  cases hd : s.onceDone with
  | false =>
    rw [hd, if_neg (by simp)] at hphase
    exact ⟨hfe, hphase.2.2.2.2.2, hphase.2.2.2.1, hphase.2.2.1⟩
  | true =>
    rw [hd, if_pos rfl] at hphase
    rcases hphase with hp | hp | hp
    · exact ⟨hfe, hp.2.2.2.2.2, hp.2.2.2.1, hp.2.2.1⟩
    · rw [hp.2.2.2.2.1] at hns
      exact absurd hns (by simp)
    · rw [hp.2.2.2.2.1] at hns
      exact absurd hns (by simp)

/-- C8 witness: three successful operations. -/
theorem bundle_success_no_cancel_witness :
    Bundle.run [Ev.add (none : Option Nat), Ev.add none, Ev.add none,
        Ev.tick 2, Ev.tick 2, Ev.tick 0, Ev.tick 1, Ev.tick 1, Ev.tick 0]
      = some sOk3
    ∧ (∀ r ∈ sOk3.added, r = none)
    ∧ (sOk3.Join = none ∧ sOk3.cancelled = false ∧ sOk3.cancelCount = 0
       ∧ sOk3.storeCount = 0) :=
  ⟨by decide, by decide,
   bundle_success_no_cancel [Ev.add (none : Option Nat), Ev.add none,
      Ev.add none, Ev.tick 2, Ev.tick 2, Ev.tick 0, Ev.tick 1, Ev.tick 1,
      Ev.tick 0] sOk3 (by decide) (by decide)⟩

/-- C9: `Join` is idempotent: once `Join` has returned (counter zero), no
goroutine of the bundle can take a further step, so any later `Join` with no
intervening `Add` observes exactly the same state, is immediately enabled,
and returns the same result. -/
theorem bundle_join_idempotent {ε : Type} (evs : List (Ev ε)) (s : Bundle ε)
    (h : Bundle.run evs = some s) (hj : s.joinEnabled)
    (evs' : List (Ev ε)) (s' : Bundle ε)
    (hnoadd : ∀ e ∈ evs', e.isAdd = false)
    (h' : s.runFrom evs' = some s') :
    s' = s ∧ s'.Join = s.Join ∧ s'.joinEnabled := by
  have hinv := Bundle.run_inv evs s h
  obtain ⟨hc, _⟩ := hinv
  have hall : ∀ t ∈ s.threads, t = TState.finished := by
    intro t ht
    have hz : s.threads.countP (fun t => ! t.isFinished) = 0 := by
      rw [Bundle.joinEnabled] at hj
      rw [Bundle.unfinishedCount] at hc
      omega
    have hfin := List.countP_eq_zero.mp hz t ht
    cases t <;> (simp at hfin; try rfl)
  have hstep : ∀ i, s.threadStep i = none := by
    intro i
    cases hl : s.threads[i]? with
    | none => simp [Bundle.threadStep, hl]
    | some t =>
      have := hall t (List.getElem?_mem hl)
      subst this
      simp [Bundle.threadStep, hl, Bundle.stepOf]
  cases evs' with
  | nil =>
    simp only [Bundle.runFrom, Option.some.injEq] at h'
    subst h'
    exact ⟨rfl, rfl, hj⟩
  | cons e rest =>
    cases e with
    | add r =>
      have := hnoadd _ (List.mem_cons_self _ _)
      simp [Ev.isAdd] at this
    | tick i =>
      simp [Bundle.runFrom, Bundle.applyEv, hstep i] at h'

/-- C9 witness: after a drained run, the empty continuation re-joins with the
same result. -/
theorem bundle_join_idempotent_witness :
    Bundle.run [Ev.add (none : Option Nat), Ev.tick 0, Ev.tick 0] = some sOk1
    ∧ sOk1.joinEnabled
    ∧ sOk1.runFrom [] = some sOk1
    ∧ (sOk1 = sOk1 ∧ Bundle.Join sOk1 = Bundle.Join sOk1
       ∧ sOk1.joinEnabled) :=
  ⟨by decide, by decide, by decide,
   bundle_join_idempotent [Ev.add (none : Option Nat), Ev.tick 0, Ev.tick 0]
      sOk1 (by decide) (by decide) [] sOk1 (by simp) (by decide)⟩

/-- C10: `NewInvariantMutex` rejects a nil check regardless of the debug
toggle: for either toggle value the construction panics with the programmer
error and never returns a mutex. -/
theorem new_invariant_mutex_nil_check_panics {χ : Type} :
    ∀ enabled : Bool,
      NewInvariantMutex enabled (none : Option χ)
        = Except.error "check must be non-nil."
      ∧ (NewInvariantMutex enabled (none : Option χ)).isOk = false := by
  intro enabled
  cases enabled <;> exact ⟨rfl, rfl⟩

end Syncutil
